import Mathlib

/-!
# Databricks mount configuration (goofys, `internal/databricks_*.go`)

A shallow embedding of the mount resolution, bucket derivation, mount
configuration and credential expiry code of `internal/databricks_credentials.go`,
together with the parts of Go's standard library the code calls
(`net/url.ParseRequestURI`, `URL.Hostname`, `strings.Trim`, `time.Unix`,
`Time.Add`, `Time.Before`).  The library code is not part of the repository; it
is transcribed from the sources of Go 1.13, the release of the year the
repository code is dated (2019).

A Go `string` is a sequence of bytes.  It is represented by a `List Char` whose
elements stand for the bytes of the string one by one; ASCII text is written as
usual (`"s3a://bucket/path".toList`).  Every test the modelled library code
makes on a byte is either a comparison with an ASCII byte or guarded by
`< 0x80`, so bytes `≥ 0x80` are passed through untouched.
-/

namespace Goofys

/-- A Go string: its bytes in order. -/
abbrev GoString := List Char

deriving instance DecidableEq for Except

/-! ## `strings` -/

namespace strings

/-- Function `strings.HasPrefix`. -/
def HasPrefix (s pre : GoString) : Bool := pre.isPrefixOf s

/-- Function `strings.HasSuffix`. -/
def HasSuffix (s suf : GoString) : Bool := suf.reverse.isPrefixOf s.reverse

/-- Function `strings.IndexByte`: index of the first `c` in `s`, `none` for Go's `-1`. -/
def IndexByte : GoString → Char → Option Nat
  | [], _ => none
  | x :: xs, c => if x = c then some 0 else (IndexByte xs c).map (· + 1)

/-- Function `strings.LastIndexByte`: index of the last `c` in `s`, `none` for Go's `-1`. -/
def LastIndexByte : GoString → Char → Option Nat
  | [], _ => none
  | x :: xs, c =>
    match LastIndexByte xs c with
    | some i => some (i + 1)
    | none => if x = c then some 0 else none

/-- Function `strings.Index`: index of the first occurrence of `sub` in `s`. -/
def Index : GoString → GoString → Option Nat
  | [], sub => if sub.isEmpty then some 0 else none
  | x :: xs, sub =>
    if sub.isPrefixOf (x :: xs) then some 0 else (Index xs sub).map (· + 1)

/-- Function `strings.Count(s, c)` for a one-byte separator. -/
def CountByte (s : GoString) (c : Char) : Nat := s.count c

/-- Function `strings.Contains(s, c)` for a one-byte substring. -/
def ContainsByte (s : GoString) (c : Char) : Bool := s.contains c

/-- Function `strings.TrimLeft(s, c)` for a one-byte cutset. -/
def TrimLeftByte (s : GoString) (c : Char) : GoString := s.dropWhile (· == c)

/-- Function `strings.TrimRight(s, c)` for a one-byte cutset. -/
def TrimRightByte (s : GoString) (c : Char) : GoString :=
  (s.reverse.dropWhile (· == c)).reverse

/-- Function `strings.Trim(s, c)` for a one-byte cutset: all leading and trailing `c` removed. -/
def TrimByte (s : GoString) (c : Char) : GoString :=
  TrimRightByte (TrimLeftByte s c) c

/-- Function `strings.TrimPrefix`. -/
def TrimPrefix (s pre : GoString) : GoString :=
  if HasPrefix s pre then s.drop pre.length else s

end strings

/-! ## `net/url` (request-URI parsing, Go 1.13) -/

namespace url

/-- The error values `net/url` produces while parsing. -/
inductive ParseError where
  | invalidControlCharacter
  | emptyUrl
  | missingProtocolScheme
  | invalidURIForRequest
  | missingBracketInHost
  | invalidPort (colonPort : GoString)
  | invalidUserinfo
  | EscapeError (s : GoString)
  | InvalidHostError (s : GoString)
  deriving DecidableEq, Repr

/-- The escaping modes `unescape` is called with while parsing. -/
inductive encoding where
  | encodePath
  | encodeHost
  | encodeZone
  | encodeUserPassword
  deriving DecidableEq, Repr

/-- Type `url.Userinfo`. -/
structure Userinfo where
  username : GoString
  password : GoString
  passwordSet : Bool
  deriving DecidableEq, Repr

/-- Type `url.URL` (without `RawPath` and `Fragment`, which request parsing of a
source string never reads back). -/
structure URL where
  Scheme : GoString := []
  Opaque : GoString := []
  User : Option Userinfo := none
  Host : GoString := []
  Path : GoString := []
  ForceQuery : Bool := false
  RawQuery : GoString := []
  deriving DecidableEq, Repr

def isLetter (c : Char) : Bool := ('a' ≤ c && c ≤ 'z') || ('A' ≤ c && c ≤ 'Z')

def isDigit (c : Char) : Bool := '0' ≤ c && c ≤ '9'

def ishex (c : Char) : Bool :=
  ('0' ≤ c && c ≤ '9') || ('a' ≤ c && c ≤ 'f') || ('A' ≤ c && c ≤ 'F')

def unhex (c : Char) : Nat :=
  if '0' ≤ c && c ≤ '9' then c.toNat - '0'.toNat
  else if 'a' ≤ c && c ≤ 'f' then c.toNat - 'a'.toNat + 10
  else if 'A' ≤ c && c ≤ 'F' then c.toNat - 'A'.toNat + 10
  else 0

/-- Reports whether the string contains a byte below 0x20 or the byte 0x7f. -/
def stringContainsCTLByte (s : GoString) : Bool :=
  s.any (fun b => b < ' ' || b = Char.ofNat 0x7f)

/-- The loop of `getscheme`; `i0` is true while the index is still 0 and `acc`
holds the bytes already passed (in reverse).  The second component of the
result is what follows the colon; `none` stands for "no scheme: the whole
string is the rest". -/
def getschemeLoop : GoString → Bool → GoString → Except ParseError (Option (GoString × GoString))
  | [], _, _ => .ok none
  | c :: cs, i0, acc =>
    if isLetter c then getschemeLoop cs false (c :: acc)
    else if isDigit c || c = '+' || c = '-' || c = '.' then
      if i0 then .ok none else getschemeLoop cs false (c :: acc)
    else if c = ':' then
      if i0 then .error .missingProtocolScheme else .ok (some (acc.reverse, cs))
    else .ok none

/-- Function `getscheme`: splits `scheme:rest`; with no valid scheme the scheme is empty
and the rest is the whole string. -/
def getscheme (rawurl : GoString) : Except ParseError (GoString × GoString) :=
  match getschemeLoop rawurl true [] with
  | .error e => .error e
  | .ok none => .ok ([], rawurl)
  | .ok (some r) => .ok r

/-- Function `split(s, c, cutc)` for a one-byte separator. -/
def split (s : GoString) (c : Char) (cutc : Bool) : GoString × GoString :=
  match strings.IndexByte s c with
  | none => (s, [])
  | some i => if cutc then (s.take i, s.drop (i + 1)) else (s.take i, s.drop i)

/-- Function `shouldEscape(c, mode)` for the host and zone modes, the only ones
`unescape` asks about; 0x27 is the apostrophe and 0x22 the double quote. -/
def shouldEscapeHost (c : Char) : Bool :=
  if isLetter c || isDigit c then false
  else if c ∈ "!$&()*+,;=:[]<>".toList || c = Char.ofNat 0x27 || c = Char.ofNat 0x22 then false
  else if c ∈ "-_.~".toList then false
  else true

def isHostMode (mode : encoding) : Bool :=
  mode = .encodeHost || mode = .encodeZone

/-- First loop of `unescape`: checks that every `%` starts a well-formed escape
and, for hosts and zones, that every byte may appear there.  The source steps
over a `+` without asking `shouldEscape`; a host may hold a `+`, so asking
changes nothing. -/
def unescapeCheck (mode : encoding) : GoString → Except ParseError Unit
  | [] => .ok ()
  | c :: rest =>
    if c = '%' then
      match rest with
      | a :: b :: rest2 =>
        if !ishex a || !ishex b then .error (.EscapeError [c, a, b])
        else if mode = .encodeHost && unhex a < 8 && [c, a, b] ≠ "%25".toList then
          .error (.EscapeError [c, a, b])
        else if mode = .encodeZone && [c, a, b] ≠ "%25".toList
            && Char.ofNat (unhex a * 16 + unhex b) ≠ ' '
            && shouldEscapeHost (Char.ofNat (unhex a * 16 + unhex b)) then
          .error (.EscapeError [c, a, b])
        else unescapeCheck mode rest2
      | _ => .error (.EscapeError (c :: rest))
    else if isHostMode mode && c.toNat < 0x80 && shouldEscapeHost c then
      .error (.InvalidHostError [c])
    else unescapeCheck mode rest

/-- Second loop of `unescape`: replaces each `%XX` by the byte it denotes. -/
def unescapeDecode : GoString → GoString
  | [] => []
  | c :: rest =>
    if c = '%' then
      match rest with
      | a :: b :: rest2 => Char.ofNat (unhex a * 16 + unhex b) :: unescapeDecode rest2
      | _ => [c]
    else c :: unescapeDecode rest

/-- Function `unescape(s, mode)` for the modes used while parsing a URL. -/
def unescape (s : GoString) (mode : encoding) : Except ParseError GoString :=
  match unescapeCheck mode s with
  | .error e => .error e
  | .ok () => if strings.CountByte s '%' = 0 then .ok s else .ok (unescapeDecode s)

/-- Function `validOptionalPort`: empty, or a colon followed by digits only. -/
def validOptionalPort : GoString → Bool
  | [] => true
  | c :: ds => if c ≠ ':' then false else ds.all (fun b => !(b < '0' || b > '9'))

/-- Function `validUserinfo`. -/
def validUserinfo (s : GoString) : Bool :=
  s.all (fun r => isLetter r || isDigit r ||
    r ∈ "-._:~!$&()*+,;=%@".toList || r = Char.ofNat 0x27)

/-- Function `parseHost`. -/
def parseHost (host : GoString) : Except ParseError GoString :=
  let plain : Except ParseError GoString := unescape host .encodeHost
  if strings.HasPrefix host ['['] then
    match strings.LastIndexByte host ']' with
    | none => .error .missingBracketInHost
    | some i =>
      let colonPort := host.drop (i + 1)
      if !validOptionalPort colonPort then .error (.invalidPort colonPort)
      else
        match strings.Index (host.take i) "%25".toList with
        | some zone =>
          match unescape (host.take zone) .encodeHost with
          | .error e => .error e
          | .ok host1 =>
            match unescape ((host.take i).drop zone) .encodeZone with
            | .error e => .error e
            | .ok host2 =>
              match unescape (host.drop i) .encodeHost with
              | .error e => .error e
              | .ok host3 => .ok (host1 ++ host2 ++ host3)
        | none => plain
  else
    match strings.LastIndexByte host ':' with
    | some i =>
      let colonPort := host.drop i
      if !validOptionalPort colonPort then .error (.invalidPort colonPort) else plain
    | none => plain

/-- Function `parseAuthority`: `[userinfo@]host`. -/
def parseAuthority (authority : GoString) : Except ParseError (Option Userinfo × GoString) :=
  let i := strings.LastIndexByte authority '@'
  let hostPart := match i with
    | none => authority
    | some i => authority.drop (i + 1)
  match parseHost hostPart with
  | .error e => .error e
  | .ok host =>
    match i with
    | none => .ok (none, host)
    | some i =>
      let userinfo := authority.take i
      if !validUserinfo userinfo then .error .invalidUserinfo
      else if !strings.ContainsByte userinfo ':' then
        match unescape userinfo .encodeUserPassword with
        | .error e => .error e
        | .ok u => .ok (some ⟨u, [], false⟩, host)
      else
        let up := split userinfo ':' true
        match unescape up.1 .encodeUserPassword with
        | .error e => .error e
        | .ok username =>
          match unescape up.2 .encodeUserPassword with
          | .error e => .error e
          | .ok password => .ok (some ⟨username, password, true⟩, host)

/-- Function `strings.ToLower` on a scheme (ASCII letters, digits, `+`, `-`, `.`). -/
def toLower (s : GoString) : GoString :=
  s.map (fun c => if 'A' ≤ c && c ≤ 'Z' then Char.ofNat (c.toNat + 32) else c)

/-- Function `parse(rawurl, viaRequest)` with `viaRequest = true`. -/
def parseViaRequest (rawurl : GoString) : Except ParseError URL :=
  if stringContainsCTLByte rawurl then .error .invalidControlCharacter
  else if rawurl = [] then .error .emptyUrl
  else if rawurl = ['*'] then .ok { Path := ['*'] }
  else
    match getscheme rawurl with
    | .error e => .error e
    | .ok (scheme0, rest0) =>
      let scheme := toLower scheme0
      let forceQuery := strings.HasSuffix rest0 ['?'] && strings.CountByte rest0 '?' = 1
      let rq : GoString × GoString :=
        if forceQuery then (rest0.take (rest0.length - 1), []) else split rest0 '?' true
      let rest := rq.1
      let rawQuery := rq.2
      if !strings.HasPrefix rest ['/'] && scheme ≠ [] then
        .ok { Scheme := scheme, Opaque := rest, ForceQuery := forceQuery, RawQuery := rawQuery }
      else if !strings.HasPrefix rest ['/'] then .error .invalidURIForRequest
      else if scheme ≠ [] && strings.HasPrefix rest ['/', '/'] then
        let ar := split (rest.drop 2) '/' false
        match parseAuthority ar.1 with
        | .error e => .error e
        | .ok (user, host) =>
          match unescape ar.2 .encodePath with
          | .error e => .error e
          | .ok path =>
            .ok { Scheme := scheme, User := user, Host := host, Path := path,
                  ForceQuery := forceQuery, RawQuery := rawQuery }
      else
        match unescape rest .encodePath with
        | .error e => .error e
        | .ok path =>
          .ok { Scheme := scheme, Path := path, ForceQuery := forceQuery, RawQuery := rawQuery }

/-- Function `url.ParseRequestURI`. -/
def ParseRequestURI (rawurl : GoString) : Except ParseError URL := parseViaRequest rawurl

/-- Function `splitHostPort`: splits off a valid `:port` at the last colon (an
invalid one leaves the whole input as host), then removes the brackets of an
IPv6 literal. -/
def splitHostPort (hostport : GoString) : GoString × GoString :=
  let hp : GoString × GoString :=
    match strings.LastIndexByte hostport ':' with
    | some colon =>
      if validOptionalPort (hostport.drop colon) then
        (hostport.take colon, hostport.drop (colon + 1))
      else (hostport, [])
    | none => (hostport, [])
  if strings.HasPrefix hp.1 ['['] && strings.HasSuffix hp.1 [']'] then
    ((hp.1.drop 1).take (hp.1.length - 2), hp.2)
  else hp

/-- Function `URL.Hostname`. -/
def URL.Hostname (u : URL) : GoString := (splitHostPort u.Host).1

end url


/-! ## `time` -/

namespace time

/-- A `time.Time` read as an instant: nanoseconds since the Unix epoch.  Two
instants compare with `Before` by their wall-clock reading, which is all the
code below does with them. -/
structure Time where
  unixNano : Int
  deriving DecidableEq, Repr

/-- Constant `time.Minute`, a `Duration` in nanoseconds. -/
def Minute : Int := 60 * 1000000000

/-- Function `time.Unix(sec, nsec)`; `nsec` outside `[0, 999999999]` is carried into the
seconds, so the instant is `sec` seconds and `nsec` nanoseconds after the epoch. -/
def Unix (sec nsec : Int) : Time := ⟨sec * 1000000000 + nsec⟩

/-- Function `Time.Add`. -/
def Time.Add (t : Time) (d : Int) : Time := ⟨t.unixNano + d⟩

/-- Function `Time.Before`: strictly earlier. -/
def Time.Before (t u : Time) : Bool := decide (t.unixNano < u.unixNano)

/-- The zero value `time.Time{}`: January 1, year 1, 00:00:00 UTC, which is
62135596800 seconds before the Unix epoch. -/
def zeroTime : Time := ⟨-62135596800 * 1000000000⟩

end time

/-! ## `internal/databricks_api.go`, `internal/databricks_config.go` -/

/-- The `Configurations` member of `GetMountsV2Response`. -/
structure MountConfigurations where
  Sse : GoString := []
  SessionTokenId : GoString := []
  CredentialsType : GoString := []
  Endpoint : GoString := []
  FallbackEndpoint : GoString := []
  deriving DecidableEq, Repr

structure GetMountsV2Response where
  MountPointString : GoString
  SourceString : GoString
  Configurations : MountConfigurations := {}
  deriving DecidableEq, Repr

structure GetSessionCredentialsResponse where
  Secret : GoString
  Token : GoString
  Key : GoString
  /-- An `int64`, milliseconds since the Unix epoch. -/
  Expiration : Int
  deriving DecidableEq, Repr

structure DatabricksConf where
  DaemonHost : GoString := []
  SessionTokenAllowed : Bool := false
  AutoDetectEndpoint : Bool := false
  Endpoint : GoString := []
  deriving DecidableEq, Repr

/-- Function `NewDatabricksConf`. -/
def NewDatabricksConf : DatabricksConf :=
  { SessionTokenAllowed := true, AutoDetectEndpoint := true }

/-! ## `internal/databricks_credentials.go` -/

/-- A Go `error` value as the code below can return it. -/
inductive Error where
  /-- An error returned by `DatabricksSession.Call` (transport failure, non-2xx
  status or undecodable body). -/
  | call (msg : GoString)
  /-- The `*url.Error` of `url.ParseRequestURI`: operation "parse", the URL and
  the cause. -/
  | urlParse (rawurl : GoString) (cause : url.ParseError)
  deriving DecidableEq, Repr

/-- How a function call ends: it returns, or the goroutine panics with
"invalid memory address or nil pointer dereference". -/
inductive Outcome (α : Type) where
  | returned (a : α)
  | nilDereference
  deriving DecidableEq, Repr

/-- What a `DatabricksSession.Call` hands back to its caller: the error it
returns, or the decoded response.  `Call` is an HTTP exchange with the data
daemon, so the functions that make one take its outcome as an argument. -/
abbrev CallOutcome (α : Type) := Except Error α

/-- Type `DatabricksSession` after `NewDatabricksSession`: where the daemon is and
the `sessionid` header. -/
structure DatabricksSession where
  host : GoString
  port : Nat
  sessionid : Nat
  deriving DecidableEq, Repr

structure DatabricksCredentialsProvider where
  session : DatabricksSession
  mountPoint : GoString
  expireAt : time.Time
  deriving DecidableEq, Repr

/-- Type `credentials.Value` of the AWS SDK. -/
structure CredentialsValue where
  AccessKeyID : GoString := []
  SecretAccessKey : GoString := []
  SessionToken : GoString := []
  deriving DecidableEq, Repr

/-- Type `*credentials.Credentials` of the AWS SDK: `credentials.NewCredentials`
around a Databricks provider, or credentials the caller built some other way. -/
inductive Credentials where
  | ofDatabricksProvider (p : DatabricksCredentialsProvider)
  | ofCaller (tag : Nat)
  deriving DecidableEq, Repr

/-- Type `aws.Config` of the AWS SDK, reduced to the field the code writes. -/
structure AwsConfig where
  Credentials : Option Credentials := none
  deriving DecidableEq, Repr

/-- Modelled from the spec: the declaration of the `FlagStorage` type is not
among the sources; these are the two fields `configureDatabricksMount` writes,
the endpoint URL and the force-encryption flag. -/
structure FlagStorage where
  Endpoint : GoString := []
  UseSSE : Bool := false
  deriving DecidableEq, Repr

/-- Function `(*GetMountsV2Response).Bucket`: `(bucket, prefix, err)`.  The receiver is a
pointer; reading `m.SourceString` through a nil receiver panics. -/
def GetMountsV2Response.Bucket (m : Option GetMountsV2Response) :
    Outcome (Except Error (GoString × GoString)) :=
  match m with
  | none => .nilDereference
  | some m =>
    match url.ParseRequestURI m.SourceString with
    | .error err => .returned (.error (.urlParse m.SourceString err))
    | .ok uri => .returned (.ok (uri.Hostname, strings.TrimByte uri.Path '/'))

/-- Function `DatabricksSession.GetMountsV2`; `reply` is the outcome of
`s.Call("GetMountsV2", &res, nil)`. -/
def DatabricksSession.GetMountsV2 (_s : DatabricksSession)
    (reply : CallOutcome (List GetMountsV2Response)) : CallOutcome (List GetMountsV2Response) :=
  reply

/-- The `for _, m := range mounts` loop of `FindMount`: the first element whose
mount point is `mountPoint`. -/
def findMountLoop (mountPoint : GoString) : List GetMountsV2Response → Option GetMountsV2Response
  | [] => none
  | m :: rest => if m.MountPointString = mountPoint then some m else findMountLoop mountPoint rest

/-- Function `DatabricksSession.FindMount`: the pair `(*GetMountsV2Response, error)`.
After the loop the function returns `nil, err` with the `err` of the
successful `GetMountsV2` call, which is `nil`. -/
def DatabricksSession.FindMount (s : DatabricksSession)
    (reply : CallOutcome (List GetMountsV2Response)) (mountPoint : GoString) :
    Option GetMountsV2Response × Option Error :=
  match s.GetMountsV2 reply with
  | .error err => (none, some err)
  | .ok mounts =>
    match findMountLoop mountPoint mounts with
    | some m => (some m, none)
    | none => (none, none)

/-- Function `NewDatabricksCredentialsProvider`: `expireAt` is left at its zero value. -/
def NewDatabricksCredentialsProvider (session : DatabricksSession) (mountPoint : GoString) :
    DatabricksCredentialsProvider :=
  { session := session, mountPoint := mountPoint, expireAt := time.zeroTime }

/-- Function `DatabricksCredentialsProvider.Retrieve`: the provider afterwards and the
returned `(cred, err)`; `reply` is the outcome of the `GetSessionCredentials`
call.  The `int64` division and remainder truncate toward zero. -/
def DatabricksCredentialsProvider.Retrieve (p : DatabricksCredentialsProvider)
    (reply : CallOutcome GetSessionCredentialsResponse) :
    DatabricksCredentialsProvider × CredentialsValue × Option Error :=
  match reply with
  | .error err => (p, {}, some err)
  | .ok res =>
    let expireAt := time.Time.Add
      (time.Unix (res.Expiration.tdiv 1000) (res.Expiration.tmod 1000 * 1000 * 1000))
      (-5 * time.Minute)
    ({ p with expireAt := expireAt },
     { AccessKeyID := res.Key, SecretAccessKey := res.Secret, SessionToken := res.Token },
     none)

/-- Function `DatabricksCredentialsProvider.IsExpired`; `now` is the reading of `time.Now()`. -/
def DatabricksCredentialsProvider.IsExpired (p : DatabricksCredentialsProvider)
    (now : time.Time) : Bool :=
  p.expireAt.Before now

/-- What `configureDatabricksMount` returns and what it leaves in the two
structures it writes through pointers. -/
structure ConfigureResult where
  bucketSpec : GoString
  err : Option Error
  flags : FlagStorage
  awsConfig : AwsConfig
  deriving DecidableEq, Repr

/-- Function `DatabricksSession.configureDatabricksMount`; `reply` is the outcome of the
`GetMountsV2` call made by `FindMount`. -/
def DatabricksSession.configureDatabricksMount (s : DatabricksSession)
    (reply : CallOutcome (List GetMountsV2Response)) (config : DatabricksConf)
    (mountPoint prefix_ : GoString) (flags : FlagStorage) (awsConfig : AwsConfig) :
    Outcome ConfigureResult :=
  let flags1 : FlagStorage :=
    if config.Endpoint ≠ [] then { flags with Endpoint := "https://".toList ++ config.Endpoint }
    else flags
  match s.FindMount reply mountPoint with
  | (_, some err) => .returned ⟨[], some err, flags1, awsConfig⟩
  | (m, none) =>
    match GetMountsV2Response.Bucket m with
    | .nilDereference => .nilDereference
    | .returned (.error err) => .returned ⟨[], some err, flags1, awsConfig⟩
    | .returned (.ok (bucket, bucketPrefix)) =>
      match m with
      | none => .nilDereference
      | some m =>
        let bucketSpec := bucket ++ ":".toList ++ bucketPrefix ++ "/".toList ++ prefix_
        let awsConfig1 : AwsConfig :=
          if m.Configurations.CredentialsType = "SessionToken".toList || config.SessionTokenAllowed
          then { awsConfig with
                  Credentials :=
                    some (.ofDatabricksProvider (NewDatabricksCredentialsProvider s mountPoint)) }
          else awsConfig
        let flags2 : FlagStorage := { flags1 with UseSSE := true }
        let flags3 : FlagStorage :=
          if m.Configurations.Endpoint ≠ [] then
            { flags2 with Endpoint := "https://".toList ++ m.Configurations.Endpoint }
          else if m.Configurations.FallbackEndpoint ≠ [] then
            { flags2 with Endpoint := "https://".toList ++ m.Configurations.FallbackEndpoint }
          else flags2
        .returned ⟨bucketSpec, none, flags3, awsConfig1⟩

/-- The `GetMountsV2` answer of the test daemon in `databricks_test.go`. -/
def testMounts : List GetMountsV2Response :=
  [ { MountPointString := "/".toList,
      SourceString := "s3a://databricks-staging-storage-oregon/shard-dogfood/0".toList,
      Configurations :=
        { Sse := "AES256".toList, SessionTokenId := "/".toList,
          CredentialsType := "SessionToken".toList } },
    { MountPointString := "/mnt/c2s".toList,
      SourceString := "s3a://databricks-c2s/shard-dogfood/0".toList,
      Configurations := { Sse := "AES256".toList, SessionTokenId := "/".toList } } ]

/-- The session of the test suite (`sessionid` 1234567890). -/
def testSession : DatabricksSession :=
  { host := "127.0.0.1".toList, port := 7070, sessionid := 1234567890 }

/-- The entry of `mounts` at the smallest index whose mount point is
`mountPoint` is `m`. -/
def IsFirstMatch (mounts : List GetMountsV2Response) (mountPoint : GoString)
    (m : GetMountsV2Response) : Prop :=
  ∃ i, ∃ h : i < mounts.length, mounts.get ⟨i, h⟩ = m ∧ m.MountPointString = mountPoint ∧
    ∀ j, ∀ hj : j < mounts.length, j < i → (mounts.get ⟨j, hj⟩).MountPointString ≠ mountPoint

/-- Runs `Retrieve` once for each reply, in order, and keeps the provider. -/
def retrieveEach (p : DatabricksCredentialsProvider) :
    List (CallOutcome GetSessionCredentialsResponse) → DatabricksCredentialsProvider
  | [] => p
  | reply :: rest => retrieveEach (p.Retrieve reply).1 rest

/-- The flags after the endpoint seeding at the head of `configureDatabricksMount`. -/
def seededFlags (config : DatabricksConf) (flags : FlagStorage) : FlagStorage :=
  if config.Endpoint ≠ [] then { flags with Endpoint := "https://".toList ++ config.Endpoint }
  else flags

/-- The config of the second scenario of `TestConfigureDatabricks`. -/
def c2sConf : DatabricksConf :=
  { AutoDetectEndpoint := false, Endpoint := "s3.us-iso-east-1.c2s.ic.gov".toList }

/-- A mount entry with an explicit and a fallback endpoint. -/
def mountA : GetMountsV2Response :=
  { MountPointString := "/a".toList, SourceString := "s3a://bucket-a/x".toList,
    Configurations :=
      { Endpoint := "s3.a.example".toList, FallbackEndpoint := "s3.fb.example".toList } }

/-- A mount entry with a fallback endpoint only. -/
def mountB : GetMountsV2Response :=
  { MountPointString := "/b".toList, SourceString := "s3a://bucket-b/y".toList,
    Configurations := { FallbackEndpoint := "s3.fb.example".toList } }

/-- A mount entry whose source string is no request URI. -/
def mountBad : GetMountsV2Response :=
  { MountPointString := "/bad".toList, SourceString := "bucket/path".toList }

/-- A mount list whose entries carry endpoints. -/
def endpointMounts : List GetMountsV2Response := [mountA, mountB, mountBad]

/-- Flags a caller has already filled in. -/
def callerFlags : FlagStorage := { Endpoint := "http://caller.example".toList, UseSSE := false }

/-- An AWS config that already holds credentials of the caller. -/
def callerAwsConfig : AwsConfig := { Credentials := some (.ofCaller 7) }

/-! ## Source strings of the shape `scheme://bucket/path` -/

namespace url

/-- A byte `getscheme` lets pass after the first one of a scheme. -/
def isSchemeByte (c : Char) : Bool :=
  isLetter c || isDigit c || c = '+' || c = '-' || c = '.'

/-- A scheme as `getscheme` recognises one: an ASCII letter followed by ASCII
letters, digits, `+`, `-` or `.`. -/
def validScheme : GoString → Bool
  | [] => false
  | c :: cs => isLetter c && cs.all isSchemeByte

/-- The string starts with a scheme and its colon: there is a colon, and what
precedes the first one is a scheme. -/
def hasSchemePrefix (s : GoString) : Bool :=
  s.contains ':' && validScheme (s.takeWhile (· != ':'))

/-- A byte that a host may hold as it stands and that is not part of a port or
of an IPv6 literal: an ASCII letter or digit, one of
`! $ & ( ) * + , ; = < > - _ . ~`, the apostrophe (0x27), the double quote
(0x22), or a byte from 0x80 up. -/
def plainHostByte (c : Char) : Bool :=
  isLetter c || isDigit c || c ∈ "!$&()*+,;=<>-_.~".toList
    || c = Char.ofNat 0x27 || c = Char.ofNat 0x22 || 0x80 ≤ c.toNat

/-- A byte of a path segment that stands for itself: not a control byte
(below 0x20, or 0x7f) and none of `/`, `?`, `%`. -/
def plainSegmentByte (c : Char) : Bool :=
  !(c < ' ') && c ≠ Char.ofNat 0x7f && c ≠ '/' && c ≠ '?' && c ≠ '%'

end url

/-- The path `/P1/.../Pn` of the segments `P1, ..., Pn` (empty for no segment). -/
def pathOfSegments : List GoString → GoString
  | [] => []
  | seg :: rest => '/' :: seg ++ pathOfSegments rest

/-- The source string `scheme://B/P1/.../Pn`. -/
def sourceOf (scheme bucket : GoString) (segments : List GoString) : GoString :=
  scheme ++ "://".toList ++ bucket ++ pathOfSegments segments

/-- A mount entry with the given source string. -/
def mountOfSource (source : GoString) : GetMountsV2Response :=
  { MountPointString := "/".toList, SourceString := source }

/-! ## Mount lookup -/

theorem findMountLoop_none (mountPoint : GoString) (mounts : List GetMountsV2Response)
    (h : ∀ x ∈ mounts, x.MountPointString ≠ mountPoint) :
    findMountLoop mountPoint mounts = none := by
  induction mounts with
  | nil => rfl
  | cons x xs ih =>
    have hx : x.MountPointString ≠ mountPoint := h x (List.mem_cons_self _ _)
    have hxs : ∀ y ∈ xs, y.MountPointString ≠ mountPoint :=
      fun y hy => h y (List.mem_cons_of_mem _ hy)
    simp [findMountLoop, hx, ih hxs]

theorem findMountLoop_isFirstMatch (mountPoint : GoString) (mounts : List GetMountsV2Response)
    (m : GetMountsV2Response) (h : IsFirstMatch mounts mountPoint m) :
    findMountLoop mountPoint mounts = some m := by
  induction mounts with
  | nil =>
    obtain ⟨i, hi, _⟩ := h
    exact absurd hi (Nat.not_lt_zero i)
  | cons x xs ih =>
    obtain ⟨i, hi, hget, hm, hfirst⟩ := h
    cases i with
    | zero =>
      have hx : x = m := by simpa using hget
      subst hx
      simp [findMountLoop, hm]
    | succ k =>
      have hx : x.MountPointString ≠ mountPoint := by
        have := hfirst 0 (Nat.succ_pos _) (Nat.succ_pos k)
        simpa using this
      have hk : k < xs.length := Nat.lt_of_succ_lt_succ hi
      have hrest : IsFirstMatch xs mountPoint m := by
        refine ⟨k, hk, ?_, hm, ?_⟩
        · simpa using hget
        · intro j hj hjk
          have := hfirst (j + 1) (Nat.succ_lt_succ hj) (Nat.succ_lt_succ hjk)
          simpa using this
      simp [findMountLoop, hx, ih hrest]

theorem findMountLoop_some (mountPoint : GoString) (mounts : List GetMountsV2Response)
    (m : GetMountsV2Response) (h : findMountLoop mountPoint mounts = some m) :
    IsFirstMatch mounts mountPoint m := by
  induction mounts with
  | nil => simp [findMountLoop] at h
  | cons x xs ih =>
    by_cases hx : x.MountPointString = mountPoint
    · have hxm : x = m := by simpa [findMountLoop, hx] using h
      subst hxm
      refine ⟨0, Nat.succ_pos _, rfl, hx, ?_⟩
      intro j _ hj
      exact absurd hj (Nat.not_lt_zero j)
    · have hrest : findMountLoop mountPoint xs = some m := by
        simpa [findMountLoop, hx] using h
      obtain ⟨i, hi, hget, hm, hfirst⟩ := ih hrest
      refine ⟨i + 1, Nat.succ_lt_succ hi, by simpa using hget, hm, ?_⟩
      intro j hj hji
      cases j with
      | zero => simpa using hx
      | succ k =>
        have := hfirst k (Nat.lt_of_succ_lt_succ hj) (Nat.lt_of_succ_lt_succ hji)
        simpa using this

theorem findMountLoop_eq_none (mountPoint : GoString) (mounts : List GetMountsV2Response)
    (h : findMountLoop mountPoint mounts = none) :
    ∀ x ∈ mounts, x.MountPointString ≠ mountPoint := by
  induction mounts with
  | nil => simp
  | cons x xs ih =>
    by_cases hx : x.MountPointString = mountPoint
    · simp [findMountLoop, hx] at h
    · have hrest : findMountLoop mountPoint xs = none := by
        simpa [findMountLoop, hx] using h
      intro y hy
      rcases List.mem_cons.mp hy with rfl | hy
      · exact hx
      · exact ih hrest y hy

/-- C6: on the mount list of a successful `GetMountsV2` call, `FindMount`
returns (with a nil error) the entry at the smallest index whose
`MountPointString` equals the query path, or, when no entry has that mount
point, no entry (a nil pointer, still with a nil error).  The list itself is
only read. -/
theorem FindMount_first_exact_match (s : DatabricksSession)
    (mounts : List GetMountsV2Response) (mountPoint : GoString) :
    (∃ i, ∃ h : i < mounts.length,
        (mounts.get ⟨i, h⟩).MountPointString = mountPoint ∧
        (∀ j, ∀ hj : j < mounts.length, j < i →
          (mounts.get ⟨j, hj⟩).MountPointString ≠ mountPoint) ∧
        s.FindMount (.ok mounts) mountPoint = (some (mounts.get ⟨i, h⟩), none)) ∨
    ((∀ x ∈ mounts, x.MountPointString ≠ mountPoint) ∧
        s.FindMount (.ok mounts) mountPoint = (none, none)) := by
  cases hloop : findMountLoop mountPoint mounts with
  | none =>
    right
    refine ⟨findMountLoop_eq_none mountPoint mounts hloop, ?_⟩
    simp [DatabricksSession.FindMount, DatabricksSession.GetMountsV2, hloop]
  | some m =>
    left
    obtain ⟨i, hi, hget, hm, hfirst⟩ := findMountLoop_some mountPoint mounts m hloop
    refine ⟨i, hi, by rw [hget]; exact hm, hfirst, ?_⟩
    rw [hget]
    simp [DatabricksSession.FindMount, DatabricksSession.GetMountsV2, hloop]

/-! ## Mount configuration -/

theorem Bucket_some_cases (m : GetMountsV2Response) :
    (∃ err, GetMountsV2Response.Bucket (some m) = .returned (.error err)) ∨
    (∃ b bp, GetMountsV2Response.Bucket (some m) = .returned (.ok (b, bp))) := by
  cases h : url.ParseRequestURI m.SourceString with
  | error e =>
    exact Or.inl ⟨.urlParse m.SourceString e, by simp only [GetMountsV2Response.Bucket, h]⟩
  | ok u =>
    exact Or.inr ⟨u.Hostname, strings.TrimByte u.Path '/',
      by simp only [GetMountsV2Response.Bucket, h]⟩

theorem configure_of_bucket_ok (s : DatabricksSession) (mounts : List GetMountsV2Response)
    (config : DatabricksConf) (mountPoint prefix_ : GoString) (flags : FlagStorage)
    (awsConfig : AwsConfig) (m : GetMountsV2Response) (b bp : GoString)
    (hm : IsFirstMatch mounts mountPoint m)
    (hb : GetMountsV2Response.Bucket (some m) = .returned (.ok (b, bp))) :
    s.configureDatabricksMount (.ok mounts) config mountPoint prefix_ flags awsConfig =
      .returned
        { bucketSpec := b ++ ":".toList ++ bp ++ "/".toList ++ prefix_
          err := none
          flags :=
            if m.Configurations.Endpoint ≠ [] then
              { Endpoint := "https://".toList ++ m.Configurations.Endpoint, UseSSE := true }
            else if m.Configurations.FallbackEndpoint ≠ [] then
              { Endpoint := "https://".toList ++ m.Configurations.FallbackEndpoint, UseSSE := true }
            else { Endpoint := (seededFlags config flags).Endpoint, UseSSE := true }
          awsConfig :=
            if m.Configurations.CredentialsType = "SessionToken".toList
                ∨ config.SessionTokenAllowed = true then
              { Credentials :=
                  some (.ofDatabricksProvider (NewDatabricksCredentialsProvider s mountPoint)) }
            else awsConfig } := by
  have hloop := findMountLoop_isFirstMatch mountPoint mounts m hm
  simp only [DatabricksSession.configureDatabricksMount, DatabricksSession.FindMount,
    DatabricksSession.GetMountsV2, hloop, hb, seededFlags]
  by_cases h3 : m.Configurations.CredentialsType = "SessionToken".toList <;>
    by_cases h4 : config.SessionTokenAllowed = true <;> simp [h3, h4]

theorem configure_of_bucket_error (s : DatabricksSession) (mounts : List GetMountsV2Response)
    (config : DatabricksConf) (mountPoint prefix_ : GoString) (flags : FlagStorage)
    (awsConfig : AwsConfig) (m : GetMountsV2Response) (err : Error)
    (hm : IsFirstMatch mounts mountPoint m)
    (hb : GetMountsV2Response.Bucket (some m) = .returned (.error err)) :
    s.configureDatabricksMount (.ok mounts) config mountPoint prefix_ flags awsConfig =
      .returned ⟨[], some err, seededFlags config flags, awsConfig⟩ := by
  have hloop := findMountLoop_isFirstMatch mountPoint mounts m hm
  simp only [DatabricksSession.configureDatabricksMount, DatabricksSession.FindMount,
    DatabricksSession.GetMountsV2, hloop, hb, seededFlags]

theorem testMounts_first_root : IsFirstMatch testMounts "/".toList
    { MountPointString := "/".toList,
      SourceString := "s3a://databricks-staging-storage-oregon/shard-dogfood/0".toList,
      Configurations :=
        { Sse := "AES256".toList, SessionTokenId := "/".toList,
          CredentialsType := "SessionToken".toList } } :=
  ⟨0, by decide, rfl, rfl, fun j _ hj => absurd hj (Nat.not_lt_zero j)⟩

theorem testMounts_first_c2s : IsFirstMatch testMounts "/mnt/c2s".toList
    { MountPointString := "/mnt/c2s".toList,
      SourceString := "s3a://databricks-c2s/shard-dogfood/0".toList,
      Configurations := { Sse := "AES256".toList, SessionTokenId := "/".toList } } := by
  refine ⟨1, by decide, rfl, rfl, ?_⟩
  intro j hj hj1
  have hj0 : j = 0 := by omega
  subst hj0
  show ("/".toList : GoString) ≠ "/mnt/c2s".toList
  decide

/-- C1: when the first entry of the mount list whose mount point equals
`mountPoint` is `m` and `Bucket()` on `m` yields `(bucket, bucketPrefix)` with no
error, `configureDatabricksMount` succeeds and returns exactly
`bucket + ":" + bucketPrefix + "/" + prefix`, for every prefix (the empty one
included). -/
theorem configureDatabricksMount_bucketSpec (s : DatabricksSession)
    (mounts : List GetMountsV2Response) (config : DatabricksConf)
    (mountPoint prefix_ : GoString) (flags : FlagStorage) (awsConfig : AwsConfig)
    (m : GetMountsV2Response) (bucket bucketPrefix : GoString)
    (hm : IsFirstMatch mounts mountPoint m)
    (hb : GetMountsV2Response.Bucket (some m) = .returned (.ok (bucket, bucketPrefix))) :
    ∃ r, s.configureDatabricksMount (.ok mounts) config mountPoint prefix_ flags awsConfig
        = .returned r ∧ r.err = none ∧
      r.bucketSpec = bucket ++ ":".toList ++ bucketPrefix ++ "/".toList ++ prefix_ :=
  ⟨_, configure_of_bucket_ok s mounts config mountPoint prefix_ flags awsConfig m bucket
    bucketPrefix hm hb, rfl, rfl⟩

set_option maxRecDepth 100000 in
/-- C1 at the first scenario of `TestConfigureDatabricks`: mount "/" with
prefix "ml" gives "databricks-staging-storage-oregon:shard-dogfood/0/ml". -/
theorem configureDatabricksMount_bucketSpec_witness :
    (∃ r, testSession.configureDatabricksMount (.ok testMounts) { AutoDetectEndpoint := true }
        "/".toList "ml".toList {} {} = .returned r ∧ r.err = none ∧
      r.bucketSpec = "databricks-staging-storage-oregon".toList ++ ":".toList
        ++ "shard-dogfood/0".toList ++ "/".toList ++ "ml".toList) ∧
    "databricks-staging-storage-oregon".toList ++ ":".toList
        ++ "shard-dogfood/0".toList ++ "/".toList ++ "ml".toList
      = "databricks-staging-storage-oregon:shard-dogfood/0/ml".toList :=
  ⟨configureDatabricksMount_bucketSpec testSession testMounts { AutoDetectEndpoint := true }
    "/".toList "ml".toList {} {} _ _ _ testMounts_first_root (by decide), by decide⟩

/-- C3: for every config, every initial flags value and the entry `m` resolved
for the mount point, whenever `Bucket()` on `m` succeeds the call succeeds, and
the endpoint it leaves in the flags is "https://" followed by the explicit
endpoint of `m` when that is non-empty, otherwise "https://" followed by the
fallback endpoint of `m` when that is non-empty, otherwise what the seeding at
the head of the function left: "https://" followed by the endpoint of the
config when that is non-empty, and else the value the caller passed in. -/
theorem configureDatabricksMount_endpoint (s : DatabricksSession)
    (mounts : List GetMountsV2Response) (config : DatabricksConf)
    (mountPoint prefix_ : GoString) (flags : FlagStorage) (awsConfig : AwsConfig)
    (m : GetMountsV2Response) (bucket bucketPrefix : GoString)
    (hm : IsFirstMatch mounts mountPoint m)
    (hb : GetMountsV2Response.Bucket (some m) = .returned (.ok (bucket, bucketPrefix))) :
    ∃ r, s.configureDatabricksMount (.ok mounts) config mountPoint prefix_ flags awsConfig
        = .returned r ∧ r.err = none ∧
      r.flags.Endpoint =
        if m.Configurations.Endpoint ≠ [] then "https://".toList ++ m.Configurations.Endpoint
        else if m.Configurations.FallbackEndpoint ≠ [] then
          "https://".toList ++ m.Configurations.FallbackEndpoint
        else if config.Endpoint ≠ [] then "https://".toList ++ config.Endpoint
        else flags.Endpoint := by
  refine ⟨_, configure_of_bucket_ok s mounts config mountPoint prefix_ flags awsConfig m bucket
    bucketPrefix hm hb, rfl, ?_⟩
  by_cases h1 : m.Configurations.Endpoint = []
  · by_cases h2 : m.Configurations.FallbackEndpoint = []
    · by_cases h3 : config.Endpoint = [] <;> simp [h1, h2, h3, seededFlags]
    · simp [h1, h2]
  · simp [h1]

set_option maxRecDepth 100000 in
/-- C3 on four calls that all start from flags the caller has filled in: the
explicit endpoint of the entry wins over the config and the caller; the
fallback endpoint comes next; with neither, the seeded config endpoint (second
scenario of `TestConfigureDatabricks`); with nothing to seed, the value of the
caller. -/
theorem configureDatabricksMount_endpoint_witness :
    (∃ r, testSession.configureDatabricksMount (.ok endpointMounts) c2sConf
        "/a".toList "ml".toList callerFlags {} = .returned r ∧ r.err = none ∧
      r.flags.Endpoint = "https://s3.a.example".toList) ∧
    (∃ r, testSession.configureDatabricksMount (.ok endpointMounts) c2sConf
        "/b".toList "ml".toList callerFlags {} = .returned r ∧ r.err = none ∧
      r.flags.Endpoint = "https://s3.fb.example".toList) ∧
    (∃ r, testSession.configureDatabricksMount (.ok testMounts) c2sConf
        "/mnt/c2s".toList "ml".toList callerFlags {} = .returned r ∧ r.err = none ∧
      r.flags.Endpoint = "https://s3.us-iso-east-1.c2s.ic.gov".toList) ∧
    (∃ r, testSession.configureDatabricksMount (.ok testMounts) { AutoDetectEndpoint := true }
        "/".toList "ml".toList callerFlags {} = .returned r ∧ r.err = none ∧
      r.flags.Endpoint = "http://caller.example".toList) := by
  refine ⟨?_, ?_, ?_, ?_⟩
  · obtain ⟨r, hr, hok, he⟩ := configureDatabricksMount_endpoint testSession endpointMounts
      c2sConf "/a".toList "ml".toList callerFlags {} mountA "bucket-a".toList "x".toList
      (findMountLoop_some "/a".toList endpointMounts mountA (by decide)) (by decide)
    exact ⟨r, hr, hok, he.trans (by decide)⟩
  · obtain ⟨r, hr, hok, he⟩ := configureDatabricksMount_endpoint testSession endpointMounts
      c2sConf "/b".toList "ml".toList callerFlags {} mountB "bucket-b".toList "y".toList
      (findMountLoop_some "/b".toList endpointMounts mountB (by decide)) (by decide)
    exact ⟨r, hr, hok, he.trans (by decide)⟩
  · obtain ⟨r, hr, hok, he⟩ := configureDatabricksMount_endpoint testSession testMounts
      c2sConf "/mnt/c2s".toList "ml".toList callerFlags {} _ "databricks-c2s".toList
      "shard-dogfood/0".toList testMounts_first_c2s (by decide)
    exact ⟨r, hr, hok, he.trans (by decide)⟩
  · obtain ⟨r, hr, hok, he⟩ := configureDatabricksMount_endpoint testSession testMounts
      { AutoDetectEndpoint := true } "/".toList "ml".toList callerFlags {} _
      "databricks-staging-storage-oregon".toList "shard-dogfood/0".toList
      testMounts_first_root (by decide)
    exact ⟨r, hr, hok, he.trans (by decide)⟩

/-- C4: for every config and the entry `m` resolved for the mount point,
whenever `Bucket()` on `m` succeeds the call succeeds, and it leaves in the AWS
config credentials built around a new Databricks provider for this session and
mount point when the credentials type of `m` is "SessionToken" or the config
allows session tokens; when neither holds, the AWS config (its `Credentials`
field included) is exactly what the caller passed. -/
theorem configureDatabricksMount_credentials (s : DatabricksSession)
    (mounts : List GetMountsV2Response) (config : DatabricksConf)
    (mountPoint prefix_ : GoString) (flags : FlagStorage) (awsConfig : AwsConfig)
    (m : GetMountsV2Response) (bucket bucketPrefix : GoString)
    (hm : IsFirstMatch mounts mountPoint m)
    (hb : GetMountsV2Response.Bucket (some m) = .returned (.ok (bucket, bucketPrefix))) :
    ∃ r, s.configureDatabricksMount (.ok mounts) config mountPoint prefix_ flags awsConfig
        = .returned r ∧ r.err = none ∧
      ((m.Configurations.CredentialsType = "SessionToken".toList
          ∨ config.SessionTokenAllowed = true) →
        r.awsConfig.Credentials =
          some (.ofDatabricksProvider (NewDatabricksCredentialsProvider s mountPoint))) ∧
      (¬ (m.Configurations.CredentialsType = "SessionToken".toList
          ∨ config.SessionTokenAllowed = true) →
        r.awsConfig = awsConfig ∧ r.awsConfig.Credentials = awsConfig.Credentials) := by
  refine ⟨_, configure_of_bucket_ok s mounts config mountPoint prefix_ flags awsConfig m bucket
    bucketPrefix hm hb, rfl, ?_, ?_⟩
  · intro hc
    simp only [if_pos hc]
  · intro hc
    simp only [if_neg hc, and_self]

set_option maxRecDepth 100000 in
/-- C4 on three calls that all start from an AWS config holding credentials of
the caller: the provider replaces them for the "SessionToken" mount (first
scenario of `TestConfigureDatabricks`) and for a mount without a credentials
type under a config that allows session tokens; under a config that does not
(second scenario) the credentials of the caller are still there. -/
theorem configureDatabricksMount_credentials_witness :
    (∃ r, testSession.configureDatabricksMount (.ok testMounts) { AutoDetectEndpoint := true }
        "/".toList "ml".toList {} callerAwsConfig = .returned r ∧ r.err = none ∧
      r.awsConfig.Credentials = some (.ofDatabricksProvider
        (NewDatabricksCredentialsProvider testSession "/".toList))) ∧
    (∃ r, testSession.configureDatabricksMount (.ok testMounts) NewDatabricksConf
        "/mnt/c2s".toList "ml".toList {} callerAwsConfig = .returned r ∧ r.err = none ∧
      r.awsConfig.Credentials = some (.ofDatabricksProvider
        (NewDatabricksCredentialsProvider testSession "/mnt/c2s".toList))) ∧
    (∃ r, testSession.configureDatabricksMount (.ok testMounts) c2sConf
        "/mnt/c2s".toList "ml".toList {} callerAwsConfig = .returned r ∧ r.err = none ∧
      r.awsConfig.Credentials = some (.ofCaller 7)) := by
  refine ⟨?_, ?_, ?_⟩
  · obtain ⟨r, hr, hok, hyes, _⟩ := configureDatabricksMount_credentials testSession testMounts
      { AutoDetectEndpoint := true } "/".toList "ml".toList {} callerAwsConfig _
      "databricks-staging-storage-oregon".toList "shard-dogfood/0".toList
      testMounts_first_root (by decide)
    exact ⟨r, hr, hok, hyes (Or.inl rfl)⟩
  · obtain ⟨r, hr, hok, hyes, _⟩ := configureDatabricksMount_credentials testSession testMounts
      NewDatabricksConf "/mnt/c2s".toList "ml".toList {} callerAwsConfig _
      "databricks-c2s".toList "shard-dogfood/0".toList testMounts_first_c2s (by decide)
    exact ⟨r, hr, hok, hyes (Or.inr rfl)⟩
  · obtain ⟨r, hr, hok, _, hno⟩ := configureDatabricksMount_credentials testSession testMounts
      c2sConf "/mnt/c2s".toList "ml".toList {} callerAwsConfig _
      "databricks-c2s".toList "shard-dogfood/0".toList testMounts_first_c2s (by decide)
    exact ⟨r, hr, hok, (hno (by decide)).2⟩

set_option maxRecDepth 100000 in
/-- C9 as stated fails: with `AutoDetectEndpoint` true and a non-empty
`Endpoint` in the config, and the "/" entry of the test daemon (no endpoint of
its own), the call succeeds and the endpoint is the seeded
"https://s3.example.com", not the empty value the caller passed. -/
theorem configureDatabricksMount_seeds_despite_autodetect :
    ∃ r, testSession.configureDatabricksMount (.ok testMounts)
        { AutoDetectEndpoint := true, Endpoint := "s3.example.com".toList }
        "/".toList "ml".toList { Endpoint := [] } {} = .returned r ∧ r.err = none ∧
      r.flags.Endpoint = "https://s3.example.com".toList ∧
      r.flags.Endpoint ≠ ([] : GoString) := by
  refine ⟨_, configure_of_bucket_ok testSession testMounts _ _ _ _ _ _
    "databricks-staging-storage-oregon".toList "shard-dogfood/0".toList
    testMounts_first_root (by decide), rfl, by decide, by decide⟩

/-- C9, amended: the seeding looks at the `Endpoint` of the config only, never
at `AutoDetectEndpoint`.  For every config and every resolved entry whose
explicit and fallback endpoints are both empty, the call returns (with or
without an error from `Bucket()`), and the endpoint after the call is
"https://" followed by the `Endpoint` of the config when that is non-empty, and
the value the caller passed in when it is empty. -/
theorem configureDatabricksMount_seeding (s : DatabricksSession)
    (mounts : List GetMountsV2Response) (config : DatabricksConf)
    (mountPoint prefix_ : GoString) (flags : FlagStorage) (awsConfig : AwsConfig)
    (m : GetMountsV2Response)
    (hm : IsFirstMatch mounts mountPoint m)
    (he : m.Configurations.Endpoint = []) (hf : m.Configurations.FallbackEndpoint = []) :
    ∃ r, s.configureDatabricksMount (.ok mounts) config mountPoint prefix_ flags awsConfig
        = .returned r ∧
      r.flags.Endpoint =
        if config.Endpoint ≠ [] then "https://".toList ++ config.Endpoint
        else flags.Endpoint := by
  rcases Bucket_some_cases m with ⟨err, hb⟩ | ⟨b, bp, hb⟩
  · refine ⟨_, configure_of_bucket_error s mounts config mountPoint prefix_ flags awsConfig m
      err hm hb, ?_⟩
    by_cases h3 : config.Endpoint = [] <;> simp [h3, seededFlags]
  · refine ⟨_, configure_of_bucket_ok s mounts config mountPoint prefix_ flags awsConfig m
      b bp hm hb, ?_⟩
    by_cases h3 : config.Endpoint = [] <;> simp [he, hf, h3, seededFlags]

set_option maxRecDepth 100000 in
/-- C9, amended, on four calls that start from flags the caller has filled in:
with an empty `Endpoint` the value of the caller stays, under either setting of
`AutoDetectEndpoint`; with a non-empty `Endpoint` it is seeded, under
`AutoDetectEndpoint` true as well, and also when `Bucket()` then fails. -/
theorem configureDatabricksMount_seeding_witness :
    (∃ r, testSession.configureDatabricksMount (.ok testMounts) { AutoDetectEndpoint := true }
        "/".toList "ml".toList callerFlags {} = .returned r ∧
      r.flags.Endpoint = "http://caller.example".toList) ∧
    (∃ r, testSession.configureDatabricksMount (.ok testMounts) { AutoDetectEndpoint := false }
        "/mnt/c2s".toList "ml".toList callerFlags {} = .returned r ∧
      r.flags.Endpoint = "http://caller.example".toList) ∧
    (∃ r, testSession.configureDatabricksMount (.ok testMounts)
        { AutoDetectEndpoint := true, Endpoint := "s3.example.com".toList }
        "/".toList "ml".toList callerFlags {} = .returned r ∧
      r.flags.Endpoint = "https://s3.example.com".toList) ∧
    (∃ r, testSession.configureDatabricksMount (.ok endpointMounts) c2sConf
        "/bad".toList "ml".toList callerFlags {} = .returned r ∧
      r.flags.Endpoint = "https://s3.us-iso-east-1.c2s.ic.gov".toList) := by
  refine ⟨?_, ?_, ?_, ?_⟩
  · obtain ⟨r, hr, he⟩ := configureDatabricksMount_seeding testSession testMounts
      { AutoDetectEndpoint := true } "/".toList "ml".toList callerFlags {} _
      testMounts_first_root rfl rfl
    exact ⟨r, hr, he.trans (by decide)⟩
  · obtain ⟨r, hr, he⟩ := configureDatabricksMount_seeding testSession testMounts
      { AutoDetectEndpoint := false } "/mnt/c2s".toList "ml".toList callerFlags {} _
      testMounts_first_c2s rfl rfl
    exact ⟨r, hr, he.trans (by decide)⟩
  · obtain ⟨r, hr, he⟩ := configureDatabricksMount_seeding testSession testMounts
      { AutoDetectEndpoint := true, Endpoint := "s3.example.com".toList } "/".toList
      "ml".toList callerFlags {} _ testMounts_first_root rfl rfl
    exact ⟨r, hr, he.trans (by decide)⟩
  · obtain ⟨r, hr, he⟩ := configureDatabricksMount_seeding testSession endpointMounts
      c2sConf "/bad".toList "ml".toList callerFlags {} mountBad
      (findMountLoop_some "/bad".toList endpointMounts mountBad (by decide)) rfl rfl
    exact ⟨r, hr, he.trans (by decide)⟩

/-- C5 fails on the code: when no entry of the mount list has the mount point
(the empty list included), `FindMount` returns a nil entry with a nil error and
`configureDatabricksMount` goes on to call `Bucket()` through the nil pointer,
which panics; no error is returned. -/
theorem configureDatabricksMount_unmatched_nil_dereference (s : DatabricksSession)
    (mounts : List GetMountsV2Response) (config : DatabricksConf)
    (mountPoint prefix_ : GoString) (flags : FlagStorage) (awsConfig : AwsConfig)
    (hno : ∀ x ∈ mounts, x.MountPointString ≠ mountPoint) :
    s.FindMount (.ok mounts) mountPoint = (none, none) ∧
    s.configureDatabricksMount (.ok mounts) config mountPoint prefix_ flags awsConfig
      = .nilDereference := by
  have hloop := findMountLoop_none mountPoint mounts hno
  constructor
  · simp [DatabricksSession.FindMount, DatabricksSession.GetMountsV2, hloop]
  · simp [DatabricksSession.configureDatabricksMount, DatabricksSession.FindMount,
      DatabricksSession.GetMountsV2, hloop, GetMountsV2Response.Bucket]

/-- C5 at the mount list of the test daemon and the mount point "/mnt/none". -/
theorem configureDatabricksMount_unmatched_nil_dereference_witness :
    testSession.FindMount (.ok testMounts) "/mnt/none".toList = (none, none) ∧
    testSession.configureDatabricksMount (.ok testMounts) NewDatabricksConf
      "/mnt/none".toList "ml".toList {} {} = .nilDereference :=
  configureDatabricksMount_unmatched_nil_dereference testSession testMounts NewDatabricksConf
    "/mnt/none".toList "ml".toList {} {} (by decide)

/-! ## Credential expiry -/

/-- The instant `Retrieve` stores: `E` milliseconds after the epoch less five
minutes, whatever the sign of `E`. -/
theorem Retrieve_expireAt (p : DatabricksCredentialsProvider)
    (res : GetSessionCredentialsResponse) :
    (p.Retrieve (.ok res)).1.expireAt.unixNano
      = res.Expiration * 1000000 - 5 * 60 * 1000000000 := by
  have h := Int.tdiv_add_tmod res.Expiration 1000
  simp only [DatabricksCredentialsProvider.Retrieve, time.Time.Add, time.Unix, time.Minute]
  omega

theorem Retrieve_error_unchanged (p : DatabricksCredentialsProvider) (err : Error) :
    (p.Retrieve (.error err)).1 = p := rfl

theorem retrieveEach_errors (p : DatabricksCredentialsProvider) (errs : List Error) :
    retrieveEach p (errs.map Except.error) = p := by
  induction errs with
  | nil => rfl
  | cons e es ih => simpa [retrieveEach, Retrieve_error_unchanged] using ih

/-- C7 as stated fails at the boundary: with the server expiration
E = 600000 ms, five minutes earlier is the instant 300 s after the epoch, and at
exactly that instant the provider that has just retrieved is not expired. -/
theorem IsExpired_false_at_deadline :
    time.Unix 300 0 = time.Time.Add (time.Unix 0 (600000 * 1000000)) (-5 * time.Minute) ∧
    ((NewDatabricksCredentialsProvider testSession "/".toList).Retrieve
        (.ok { Secret := "SECRET".toList, Token := "TOKEN".toList, Key := "KEY".toList,
               Expiration := 600000 })).2.2 = none ∧
    ((NewDatabricksCredentialsProvider testSession "/".toList).Retrieve
        (.ok { Secret := "SECRET".toList, Token := "TOKEN".toList, Key := "KEY".toList,
               Expiration := 600000 })).1.IsExpired (time.Unix 300 0) = false := by
  decide

/-- C7, amended: after a successful `Retrieve` with server expiration `E`
(epoch milliseconds) and the margin of five minutes, `IsExpired` at `now` is
false when `now ≤ E - M` and true when `now > E - M`; instants are compared in
nanoseconds since the epoch.  In particular it is false at `now = E - M`. -/
theorem IsExpired_after_Retrieve (p : DatabricksCredentialsProvider)
    (res : GetSessionCredentialsResponse) (now : time.Time) :
    (p.Retrieve (.ok res)).2.2 = none ∧
    (now.unixNano ≤ res.Expiration * 1000000 - 5 * 60 * 1000000000 →
      (p.Retrieve (.ok res)).1.IsExpired now = false) ∧
    (res.Expiration * 1000000 - 5 * 60 * 1000000000 < now.unixNano →
      (p.Retrieve (.ok res)).1.IsExpired now = true) := by
  have h := Retrieve_expireAt p res
  refine ⟨rfl, ?_, ?_⟩
  · intro hle
    simp only [DatabricksCredentialsProvider.IsExpired, time.Time.Before, h]
    exact decide_eq_false (not_lt.mpr hle)
  · intro hlt
    simp only [DatabricksCredentialsProvider.IsExpired, time.Time.Before, h]
    exact decide_eq_true hlt

/-- C8: the provider returned by `NewDatabricksCredentialsProvider` is expired
at every instant after the zero time, and stays so after any number of
`Retrieve` calls that all returned an error. -/
theorem IsExpired_before_first_success (session : DatabricksSession) (mountPoint : GoString)
    (errs : List Error) (now : time.Time)
    (hnow : time.zeroTime.unixNano < now.unixNano) :
    (retrieveEach (NewDatabricksCredentialsProvider session mountPoint)
      (errs.map Except.error)).IsExpired now = true := by
  rw [retrieveEach_errors]
  simp only [DatabricksCredentialsProvider.IsExpired, time.Time.Before,
    NewDatabricksCredentialsProvider]
  exact decide_eq_true hnow

/-- C8 for the test session at the Unix epoch, fresh and after two failed calls. -/
theorem IsExpired_before_first_success_witness :
    (retrieveEach (NewDatabricksCredentialsProvider testSession "/".toList)
      (([] : List Error).map Except.error)).IsExpired (time.Unix 0 0) = true ∧
    (retrieveEach (NewDatabricksCredentialsProvider testSession "/".toList)
      ([Error.call "timeout".toList, Error.call "500".toList].map Except.error)).IsExpired
        (time.Unix 0 0) = true :=
  ⟨IsExpired_before_first_success testSession "/".toList [] (time.Unix 0 0) (by decide),
   IsExpired_before_first_success testSession "/".toList
    [Error.call "timeout".toList, Error.call "500".toList] (time.Unix 0 0) (by decide)⟩

/-! ## Bytes -/

theorem char_le_iff (a b : Char) : a ≤ b ↔ a.toNat ≤ b.toNat := Iff.rfl

theorem char_lt_iff (a b : Char) : a < b ↔ a.toNat < b.toNat := Iff.rfl

theorem char_eq_iff (a b : Char) : a = b ↔ a.toNat = b.toNat := by
  constructor
  · intro h; rw [h]
  · intro h
    apply Char.ext
    cases a with | mk va ha => cases b with | mk vb hb =>
    cases va with | mk bva => cases vb with | mk bvb =>
    simp only [Char.toNat, UInt32.toNat] at h
    simp only
    congr 1
    exact BitVec.eq_of_toNat_eq h

theorem toNat_ofNat_0x7f : (Char.ofNat 0x7f).toNat = 127 := by decide

theorem toNat_ofNat_0x27 : (Char.ofNat 0x27).toNat = 39 := by decide

theorem toNat_ofNat_0x22 : (Char.ofNat 0x22).toNat = 34 := by decide

theorem not_ctl_of_isSchemeByte (c : Char) (h : url.isSchemeByte c = true) :
    (decide (c < ' ') || decide (c = Char.ofNat 0x7f)) = false := by
  simp only [url.isSchemeByte, url.isLetter, url.isDigit, Bool.or_eq_true, Bool.and_eq_true,
    decide_eq_true_eq, Bool.or_eq_false_iff, decide_eq_false_iff_not, char_le_iff, char_lt_iff,
    char_eq_iff] at *
  simp only [Char.reduceToNat, toNat_ofNat_0x7f, toNat_ofNat_0x27, toNat_ofNat_0x22] at *
  omega

theorem plainHostByte_facts (c : Char) (h : url.plainHostByte c = true) :
    (decide (c < ' ') || decide (c = Char.ofNat 0x7f)) = false ∧
    c ≠ '?' ∧ c ≠ '/' ∧ c ≠ '@' ∧ c ≠ '[' ∧ c ≠ ':' ∧ c ≠ '%' ∧
    (decide (c.toNat < 0x80) && url.shouldEscapeHost c) = false := by
  simp only [url.plainHostByte, url.shouldEscapeHost, url.isLetter, url.isDigit,
    Bool.or_eq_true, Bool.and_eq_true, String.toList, List.mem_cons, List.mem_nil_iff, or_false,
    decide_eq_true_eq, Bool.or_eq_false_iff, Bool.and_eq_false_iff, decide_eq_false_iff_not,
    char_le_iff, char_lt_iff, char_eq_iff, ne_eq] at *
  simp only [Char.reduceToNat, toNat_ofNat_0x7f, toNat_ofNat_0x27, toNat_ofNat_0x22] at *
  refine ⟨by omega, by omega, by omega, by omega, by omega, by omega, by omega, ?_⟩
  by_cases h80 : c.toNat < 128
  · right
    split_ifs <;> first | rfl | omega
  · left
    exact h80

theorem plainSegmentByte_facts (c : Char) (h : url.plainSegmentByte c = true) :
    (decide (c < ' ') || decide (c = Char.ofNat 0x7f)) = false ∧
    c ≠ '?' ∧ c ≠ '/' ∧ c ≠ '%' := by
  simp only [url.plainSegmentByte, Bool.and_eq_true, Bool.not_eq_true', decide_eq_true_eq,
    decide_eq_false_iff_not, Bool.or_eq_false_iff, ne_eq] at *
  tauto


/-! ## `strings` and `net/url` on plain input -/

theorem IndexByte_eq_none (s : GoString) (c : Char) (h : c ∉ s) :
    strings.IndexByte s c = none := by
  induction s with
  | nil => rfl
  | cons x xs ih =>
    have hx : x ≠ c := fun e => h (e ▸ List.mem_cons_self _ _)
    have hxs : c ∉ xs := fun e => h (List.mem_cons_of_mem _ e)
    simp [strings.IndexByte, hx, ih hxs]

theorem LastIndexByte_eq_none (s : GoString) (c : Char) (h : c ∉ s) :
    strings.LastIndexByte s c = none := by
  induction s with
  | nil => rfl
  | cons x xs ih =>
    have hx : x ≠ c := fun e => h (e ▸ List.mem_cons_self _ _)
    have hxs : c ∉ xs := fun e => h (List.mem_cons_of_mem _ e)
    simp [strings.LastIndexByte, hx, ih hxs]

theorem IndexByte_append_cons (s t : GoString) (c : Char) (h : c ∉ s) :
    strings.IndexByte (s ++ c :: t) c = some s.length := by
  induction s with
  | nil => simp [strings.IndexByte]
  | cons x xs ih =>
    have hx : x ≠ c := fun e => h (e ▸ List.mem_cons_self _ _)
    have hxs : c ∉ xs := fun e => h (List.mem_cons_of_mem _ e)
    simp [strings.IndexByte, hx, ih hxs]

theorem split_no_sep (s : GoString) (c : Char) (cutc : Bool) (h : c ∉ s) :
    url.split s c cutc = (s, []) := by
  simp [url.split, IndexByte_eq_none s c h]

theorem split_at_sep (s t : GoString) (c : Char) (h : c ∉ s) :
    url.split (s ++ c :: t) c false = (s, c :: t) := by
  simp [url.split, IndexByte_append_cons s t c h]

theorem unescapeCheck_path (s : GoString) (h : '%' ∉ s) :
    url.unescapeCheck .encodePath s = .ok () := by
  induction s with
  | nil => rfl
  | cons x xs ih =>
    have hx : x ≠ '%' := fun e => h (e ▸ List.mem_cons_self _ _)
    have hxs : '%' ∉ xs := fun e => h (List.mem_cons_of_mem _ e)
    unfold url.unescapeCheck
    simp [hx, ih hxs, url.isHostMode]

theorem unescapeCheck_host (s : GoString) (h : s.all url.plainHostByte = true) :
    url.unescapeCheck .encodeHost s = .ok () := by
  induction s with
  | nil => rfl
  | cons x xs ih =>
    rw [List.all_cons, Bool.and_eq_true] at h
    obtain ⟨_, _, _, _, _, _, hx, hesc⟩ := plainHostByte_facts x h.1
    unfold url.unescapeCheck
    simp only [hx, if_false]
    rw [Bool.and_assoc, hesc, Bool.and_false]
    simpa using ih h.2

theorem unescape_path (s : GoString) (h : '%' ∉ s) :
    url.unescape s .encodePath = .ok s := by
  simp [url.unescape, unescapeCheck_path s h, strings.CountByte, List.count_eq_zero.mpr h]

theorem not_mem_of_all_plainHostByte (s : GoString) (h : s.all url.plainHostByte = true)
    (c : Char) (hc : url.plainHostByte c = false) : c ∉ s := by
  intro hmem
  have := List.all_eq_true.mp h c hmem
  rw [hc] at this
  exact Bool.false_ne_true this

theorem unescape_host (s : GoString) (h : s.all url.plainHostByte = true) :
    url.unescape s .encodeHost = .ok s := by
  have hp : '%' ∉ s := not_mem_of_all_plainHostByte s h '%' (by decide)
  simp [url.unescape, unescapeCheck_host s h, strings.CountByte, List.count_eq_zero.mpr hp]

theorem parseHost_plain (s : GoString) (h : s.all url.plainHostByte = true) :
    url.parseHost s = .ok s := by
  have hb : strings.HasPrefix s ['['] = false := by
    cases s with
    | nil => rfl
    | cons x xs =>
      have hx : x ≠ '[' := by
        intro e
        exact not_mem_of_all_plainHostByte (x :: xs) h '[' (by decide)
          (e ▸ List.mem_cons_self _ _)
      simp [strings.HasPrefix, List.isPrefixOf, Ne.symm hx]
  have hc : strings.LastIndexByte s ':' = none :=
    LastIndexByte_eq_none s ':' (not_mem_of_all_plainHostByte s h ':' (by decide))
  simp [url.parseHost, hb, hc, unescape_host s h]

theorem parseAuthority_plain (s : GoString) (h : s.all url.plainHostByte = true) :
    url.parseAuthority s = .ok (none, s) := by
  have ha : strings.LastIndexByte s '@' = none :=
    LastIndexByte_eq_none s '@' (not_mem_of_all_plainHostByte s h '@' (by decide))
  simp [url.parseAuthority, ha, parseHost_plain s h]

theorem HasPrefix_bracket_plain (s : GoString) (h : s.all url.plainHostByte = true) :
    strings.HasPrefix s ['['] = false := by
  cases s with
  | nil => rfl
  | cons x xs =>
    have hx : x ≠ '[' := by
      intro e
      exact not_mem_of_all_plainHostByte (x :: xs) h '[' (by decide)
        (e ▸ List.mem_cons_self _ _)
    simp [strings.HasPrefix, List.isPrefixOf, Ne.symm hx]

theorem splitHostPort_plain (s : GoString) (h : s.all url.plainHostByte = true) :
    (url.splitHostPort s).1 = s := by
  have hc : strings.LastIndexByte s ':' = none :=
    LastIndexByte_eq_none s ':' (not_mem_of_all_plainHostByte s h ':' (by decide))
  simp [url.splitHostPort, hc, HasPrefix_bracket_plain s h]

theorem getschemeLoop_scheme (cs rest acc : GoString) (h : cs.all url.isSchemeByte = true) :
    url.getschemeLoop (cs ++ ':' :: rest) false acc = .ok (some (acc.reverse ++ cs, rest)) := by
  induction cs generalizing acc with
  | nil =>
    have h1 : url.isLetter ':' = false := by decide
    have h2 : url.isDigit ':' = false := by decide
    simp [url.getschemeLoop, h1, h2]
  | cons c cs ih =>
    rw [List.all_cons, Bool.and_eq_true] at h
    have hc := h.1
    simp only [url.isSchemeByte, Bool.or_eq_true, decide_eq_true_eq] at hc
    by_cases hl : url.isLetter c = true
    · simp [url.getschemeLoop, hl, ih (c :: acc) h.2]
    · have hd : (url.isDigit c || decide (c = '+') || decide (c = '-') || decide (c = '.')) = true := by
        simp only [Bool.or_eq_true, decide_eq_true_eq]
        tauto
      simp only [List.cons_append, url.getschemeLoop, hl, hd]
      simp [ih (c :: acc) h.2]

theorem getscheme_valid (scheme rest : GoString) (h : url.validScheme scheme = true) :
    url.getscheme (scheme ++ ':' :: rest) = .ok (scheme, rest) := by
  cases scheme with
  | nil => simp [url.validScheme] at h
  | cons c cs =>
    simp only [url.validScheme, Bool.and_eq_true] at h
    have := getschemeLoop_scheme cs rest [c] h.2
    simp [url.getscheme, url.getschemeLoop, h.1, this]


theorem stringContainsCTLByte_append (s t : GoString) :
    url.stringContainsCTLByte (s ++ t)
      = (url.stringContainsCTLByte s || url.stringContainsCTLByte t) := by
  simp [url.stringContainsCTLByte, List.any_append]

theorem stringContainsCTLByte_of_all (s : GoString)
    (h : ∀ c ∈ s, (decide (c < ' ') || decide (c = Char.ofNat 0x7f)) = false) :
    url.stringContainsCTLByte s = false := by
  induction s with
  | nil => rfl
  | cons x xs ih =>
    have hx := h x (List.mem_cons_self _ _)
    have hxs := ih (fun c hc => h c (List.mem_cons_of_mem _ hc))
    simp only [url.stringContainsCTLByte, List.any_cons] at hxs ⊢
    rw [hx, hxs]
    rfl

theorem isSchemeByte_of_isLetter (c : Char) (h : url.isLetter c = true) :
    url.isSchemeByte c = true := by
  simp [url.isSchemeByte, h]

/-- A string `scheme://host` followed by a path that is empty or starts with
`/`, all of plain bytes, parses into exactly these three parts. -/
theorem parseViaRequest_plain (scheme host path : GoString)
    (hs : url.validScheme scheme = true) (hh : host.all url.plainHostByte = true)
    (hctl : url.stringContainsCTLByte path = false) (hq : '?' ∉ path) (hp : '%' ∉ path)
    (hpath : path = [] ∨ ∃ t, path = '/' :: t) :
    url.parseViaRequest (scheme ++ ':' :: '/' :: '/' :: (host ++ path))
      = .ok { Scheme := url.toLower scheme, Host := host, Path := path } := by
  obtain ⟨c, cs, rfl⟩ : ∃ c cs, scheme = c :: cs := by
    cases scheme with
    | nil => simp [url.validScheme] at hs
    | cons c cs => exact ⟨c, cs, rfl⟩
  have hs2 := hs
  simp only [url.validScheme, Bool.and_eq_true] at hs2
  have hctl_scheme : url.stringContainsCTLByte (c :: cs) = false := by
    apply stringContainsCTLByte_of_all
    intro x hx
    apply not_ctl_of_isSchemeByte
    rcases List.mem_cons.mp hx with rfl | hx
    · exact isSchemeByte_of_isLetter _ hs2.1
    · exact List.all_eq_true.mp hs2.2 x hx
  have hctl_host : url.stringContainsCTLByte host = false := by
    apply stringContainsCTLByte_of_all
    intro x hx
    exact (plainHostByte_facts x (List.all_eq_true.mp hh x hx)).1
  have h1 : url.stringContainsCTLByte (c :: cs ++ ':' :: '/' :: '/' :: (host ++ path)) = false := by
    have e : (':' :: '/' :: '/' :: (host ++ path) : GoString)
        = [':', '/', '/'] ++ (host ++ path) := rfl
    rw [stringContainsCTLByte_append, e, stringContainsCTLByte_append,
      stringContainsCTLByte_append, hctl_scheme, hctl_host, hctl]
    decide
  have h3 : (c :: cs ++ ':' :: '/' :: '/' :: (host ++ path) : GoString) ≠ ['*'] := by
    intro e
    have hc : c = '*' := by
      simp only [List.cons_append, List.cons.injEq] at e
      exact e.1
    rw [hc] at hs2
    exact absurd hs2.1 (by decide)
  have hq_host : '?' ∉ host := not_mem_of_all_plainHostByte host hh '?' (by decide)
  have hs_host : '/' ∉ host := not_mem_of_all_plainHostByte host hh '/' (by decide)
  have hq_rest : '?' ∉ ('/' :: '/' :: (host ++ path) : GoString) := by
    simp only [List.mem_cons, List.mem_append, not_or]
    exact ⟨by decide, by decide, hq_host, hq⟩
  have h4 := getscheme_valid (c :: cs) ('/' :: '/' :: (host ++ path)) hs
  have h5 : strings.CountByte ('/' :: '/' :: (host ++ path)) '?' = 0 :=
    List.count_eq_zero.mpr hq_rest
  have h6 := split_no_sep ('/' :: '/' :: (host ++ path)) '?' true hq_rest
  have h7 : url.split (host ++ path) '/' false = (host, path) := by
    rcases hpath with rfl | ⟨t, rfl⟩
    · rw [List.append_nil]
      exact split_no_sep host '/' false hs_host
    · exact split_at_sep host t '/' hs_host
  have h8 : url.toLower (c :: cs) ≠ [] := by simp [url.toLower]
  unfold url.parseViaRequest
  rw [h1, h4]
  simp only [Bool.false_eq_true, if_false, if_neg h3, h5, h6, h7, strings.HasPrefix,
    List.isPrefixOf, List.drop, parseAuthority_plain host hh, unescape_path path hp]
  simp [h8, h7, parseAuthority_plain host hh, unescape_path path hp]

/-- Result of `Bucket()` on a source string of plain bytes: the host is the bucket and the
trimmed path is the prefix. -/
theorem Bucket_plain (m : GetMountsV2Response) (scheme host path : GoString)
    (hsrc : m.SourceString = scheme ++ ':' :: '/' :: '/' :: (host ++ path))
    (hs : url.validScheme scheme = true) (hh : host.all url.plainHostByte = true)
    (hctl : url.stringContainsCTLByte path = false) (hq : '?' ∉ path) (hp : '%' ∉ path)
    (hpath : path = [] ∨ ∃ t, path = '/' :: t) :
    GetMountsV2Response.Bucket (some m)
      = .returned (.ok (host, strings.TrimByte path '/')) := by
  simp only [GetMountsV2Response.Bucket, url.ParseRequestURI, hsrc,
    parseViaRequest_plain scheme host path hs hh hctl hq hp hpath, url.URL.Hostname,
    splitHostPort_plain host hh]


/-! ## Trimming and paths of segments -/

theorem dropWhile_head_false (p : Char → Bool) (l : GoString) (x : Char) (t : GoString)
    (h : l.dropWhile p = x :: t) : p x = false := by
  have := List.head?_dropWhile_not p l
  rw [h] at this
  simpa using this

theorem TrimByte_no_suffix (s : GoString) (c : Char) :
    strings.HasSuffix (strings.TrimByte s c) [c] = false := by
  simp only [strings.HasSuffix, strings.TrimByte, strings.TrimRightByte, List.reverse_reverse,
    List.reverse_cons, List.reverse_nil, List.nil_append]
  cases h : List.dropWhile (fun x => x == c) (strings.TrimLeftByte s c).reverse with
  | nil => rfl
  | cons x t =>
    have hx := dropWhile_head_false _ _ x t h
    have hne : c ≠ x := fun e => by simp [e] at hx
    simp [List.isPrefixOf, hne]

theorem TrimByte_no_prefix (s : GoString) (c : Char) :
    strings.HasPrefix (strings.TrimByte s c) [c] = false := by
  cases h : strings.TrimByte s c with
  | nil => rfl
  | cons x t =>
    have hpre : strings.TrimByte s c <+: strings.TrimLeftByte s c := by
      have := (List.dropWhile_suffix (l := (strings.TrimLeftByte s c).reverse)
        (fun x => x == c)).reverse
      simpa [strings.TrimByte, strings.TrimRightByte] using this
    rw [h] at hpre
    obtain ⟨w, hw⟩ := hpre
    have hx := dropWhile_head_false (fun x => x == c) s x (t ++ w)
      (by simpa [strings.TrimLeftByte] using hw.symm)
    have hne : c ≠ x := fun e => by simp [e] at hx
    simp [strings.HasPrefix, List.isPrefixOf, hne]

theorem TrimRightByte_concat (s : GoString) (z c : Char) (h : z ≠ c) :
    strings.TrimRightByte (s ++ [z]) c = s ++ [z] := by
  simp [strings.TrimRightByte, List.dropWhile_cons, h]

theorem mem_pathOfSegments (segments : List GoString) (c : Char)
    (h : c ∈ pathOfSegments segments) : c = '/' ∨ ∃ seg ∈ segments, c ∈ seg := by
  induction segments with
  | nil => simp [pathOfSegments] at h
  | cons seg rest ih =>
    simp only [pathOfSegments, List.mem_cons, List.mem_append] at h
    rcases h with (h | h) | h
    · exact Or.inl h
    · exact Or.inr ⟨seg, List.mem_cons_self _ _, h⟩
    · rcases ih h with h | ⟨s, hs, hc⟩
      · exact Or.inl h
      · exact Or.inr ⟨s, List.mem_cons_of_mem _ hs, hc⟩

theorem intercalate_cons_eq (seg : GoString) (rest : List GoString) :
    "/".toList.intercalate (seg :: rest) = seg ++ pathOfSegments rest := by
  induction rest generalizing seg with
  | nil => simp [List.intercalate, pathOfSegments]
  | cons r rs ih =>
    have := ih r
    simp only [List.intercalate] at this ⊢
    rw [List.intersperse_cons_cons, List.flatten_cons, List.flatten_cons, this]
    simp [pathOfSegments]

theorem segments_end (seg : GoString) (rest : List GoString)
    (hseg : seg ≠ [] ∧ '/' ∉ seg) (hrest : ∀ s ∈ rest, s ≠ [] ∧ '/' ∉ s) :
    ∃ init z, seg ++ pathOfSegments rest = init ++ [z] ∧ z ≠ '/' := by
  induction rest generalizing seg with
  | nil =>
    refine ⟨seg.dropLast, seg.getLast hseg.1, ?_, ?_⟩
    · simp [pathOfSegments, List.dropLast_append_getLast]
    · intro e
      exact hseg.2 (e ▸ List.getLast_mem hseg.1)
  | cons r rs ih =>
    obtain ⟨init, z, he, hz⟩ := ih r (hrest r (List.mem_cons_self _ _))
      (fun s hs => hrest s (List.mem_cons_of_mem _ hs))
    refine ⟨seg ++ '/' :: init, z, ?_, hz⟩
    simp [pathOfSegments, he]

theorem TrimByte_pathOfSegments (segments : List GoString)
    (h : ∀ s ∈ segments, s ≠ [] ∧ '/' ∉ s) :
    strings.TrimByte (pathOfSegments segments) '/' = "/".toList.intercalate segments := by
  cases segments with
  | nil => rfl
  | cons seg rest =>
    have hseg := h seg (List.mem_cons_self _ _)
    have hrest : ∀ s ∈ rest, s ≠ [] ∧ '/' ∉ s := fun s hs => h s (List.mem_cons_of_mem _ hs)
    obtain ⟨x, xs, rfl⟩ : ∃ x xs, seg = x :: xs := by
      cases seg with
      | nil => exact absurd rfl hseg.1
      | cons x xs => exact ⟨x, xs, rfl⟩
    have hx : x ≠ '/' := fun e => hseg.2 (e ▸ List.mem_cons_self _ _)
    have hleft : strings.TrimLeftByte (pathOfSegments ((x :: xs) :: rest)) '/'
        = (x :: xs) ++ pathOfSegments rest := by
      simp [strings.TrimLeftByte, pathOfSegments, List.dropWhile_cons, hx]
    obtain ⟨init, z, he, hz⟩ := segments_end (x :: xs) rest hseg hrest
    rw [intercalate_cons_eq, strings.TrimByte, hleft, he, TrimRightByte_concat init z '/' hz]


/-! ## `Bucket()` -/

/-- C2 as stated fails: with a start that is no scheme ("3a") the parse is an
error; a bucket name with a colon loses what follows it ("bucket:80" gives
"bucket"); a segment with a question mark is cut there ("a?b" gives "a"); a
segment with a stray percent sign is an error; so is a bucket name with a
space, and one that opens a bracket it does not close. -/
theorem Bucket_not_every_source :
    GetMountsV2Response.Bucket (some (mountOfSource (sourceOf "3a".toList "bucket".toList
        ["p".toList])))
      = .returned (.error (.urlParse "3a://bucket/p".toList .invalidURIForRequest)) ∧
    GetMountsV2Response.Bucket (some (mountOfSource (sourceOf "s3a".toList "bucket:80".toList
        ["p".toList])))
      = .returned (.ok ("bucket".toList, "p".toList)) ∧
    GetMountsV2Response.Bucket (some (mountOfSource (sourceOf "s3a".toList "bucket".toList
        ["a?b".toList])))
      = .returned (.ok ("bucket".toList, "a".toList)) ∧
    GetMountsV2Response.Bucket (some (mountOfSource (sourceOf "s3a".toList "bucket".toList
        ["50%".toList])))
      = .returned (.error (.urlParse "s3a://bucket/50%".toList (.EscapeError "%".toList))) ∧
    GetMountsV2Response.Bucket (some (mountOfSource (sourceOf "s3a".toList "my bucket".toList
        ["p".toList])))
      = .returned
          (.error (.urlParse "s3a://my bucket/p".toList (.InvalidHostError " ".toList))) ∧
    GetMountsV2Response.Bucket (some (mountOfSource (sourceOf "s3a".toList "[bucket".toList
        ["p".toList])))
      = .returned (.error (.urlParse "s3a://[bucket/p".toList .missingBracketInHost)) :=
  ⟨by decide, by decide, by decide, by decide, by decide, by decide⟩

/-- C2, amended: for every scheme made of an ASCII letter followed by ASCII
letters, digits, `+`, `-` or `.`, every bucket name of plain host bytes (ASCII
letters and digits, `! $ & ( ) * + , ; = < > - _ . ~`, apostrophe, double quote,
bytes from 0x80 up) and every sequence of `n ≥ 0` non-empty path segments free of
control bytes, `/`, `?` and `%`, `Bucket()` on `scheme://B/P1/.../Pn` returns no
error, the bucket `B` and the prefix `P1/.../Pn` (empty for `n = 0`), and that
prefix neither begins nor ends with `/`. -/
theorem Bucket_of_plain_source (mountPoint : GoString) (conf : MountConfigurations)
    (scheme bucket : GoString) (segments : List GoString)
    (hs : url.validScheme scheme = true)
    (hb : bucket.all url.plainHostByte = true)
    (hseg : segments.all (fun seg => !seg.isEmpty && seg.all url.plainSegmentByte) = true) :
    GetMountsV2Response.Bucket
        (some { MountPointString := mountPoint,
                SourceString := sourceOf scheme bucket segments,
                Configurations := conf })
      = .returned (.ok (bucket, "/".toList.intercalate segments)) ∧
    strings.HasPrefix ("/".toList.intercalate segments) "/".toList = false ∧
    strings.HasSuffix ("/".toList.intercalate segments) "/".toList = false := by
  have hsegs : ∀ seg ∈ segments, seg ≠ [] ∧ ∀ c ∈ seg, url.plainSegmentByte c = true := by
    intro seg hmem
    have := List.all_eq_true.mp hseg seg hmem
    simp only [Bool.and_eq_true, Bool.not_eq_true', List.isEmpty_eq_false,
      List.all_eq_true] at this
    exact this
  have hbytes : ∀ c ∈ pathOfSegments segments,
      (decide (c < ' ') || decide (c = Char.ofNat 0x7f)) = false ∧ c ≠ '?' ∧ c ≠ '%' := by
    intro c hc
    rcases mem_pathOfSegments segments c hc with rfl | ⟨seg, hseg', hcs⟩
    · decide
    · have := plainSegmentByte_facts c ((hsegs seg hseg').2 c hcs)
      exact ⟨this.1, this.2.1, this.2.2.2⟩
  have hslash : ∀ seg ∈ segments, seg ≠ [] ∧ '/' ∉ seg := by
    intro seg hmem
    refine ⟨(hsegs seg hmem).1, fun hin => ?_⟩
    exact (plainSegmentByte_facts _ ((hsegs seg hmem).2 _ hin)).2.2.1 rfl
  have hpath : pathOfSegments segments = [] ∨ ∃ t, pathOfSegments segments = '/' :: t := by
    cases segments with
    | nil => exact Or.inl rfl
    | cons seg rest => exact Or.inr ⟨_, rfl⟩
  have hB := Bucket_plain
    { MountPointString := mountPoint, SourceString := sourceOf scheme bucket segments,
      Configurations := conf }
    scheme bucket (pathOfSegments segments)
    (by simp [sourceOf, List.append_assoc]) hs hb
    (stringContainsCTLByte_of_all _ (fun c hc => (hbytes c hc).1))
    (fun hin => (hbytes _ hin).2.1 rfl) (fun hin => (hbytes _ hin).2.2 rfl) hpath
  have htrim := TrimByte_pathOfSegments segments hslash
  rw [htrim] at hB
  refine ⟨hB, ?_, ?_⟩
  · rw [← htrim]
    exact TrimByte_no_prefix _ _
  · rw [← htrim]
    exact TrimByte_no_suffix _ _

set_option maxRecDepth 100000 in
/-- C2, amended, at the source string of the "/" mount of the test daemon. -/
theorem Bucket_of_plain_source_witness :
    (GetMountsV2Response.Bucket
        (some { MountPointString := "/".toList,
                SourceString := sourceOf "s3a".toList "databricks-staging-storage-oregon".toList
                  ["shard-dogfood".toList, "0".toList],
                Configurations := {} })
      = .returned (.ok ("databricks-staging-storage-oregon".toList,
          "/".toList.intercalate ["shard-dogfood".toList, "0".toList])) ∧
      strings.HasPrefix ("/".toList.intercalate ["shard-dogfood".toList, "0".toList])
        "/".toList = false ∧
      strings.HasSuffix ("/".toList.intercalate ["shard-dogfood".toList, "0".toList])
        "/".toList = false) ∧
    sourceOf "s3a".toList "databricks-staging-storage-oregon".toList
        ["shard-dogfood".toList, "0".toList]
      = "s3a://databricks-staging-storage-oregon/shard-dogfood/0".toList ∧
    "/".toList.intercalate ["shard-dogfood".toList, "0".toList] = "shard-dogfood/0".toList :=
  ⟨Bucket_of_plain_source "/".toList {} "s3a".toList
      "databricks-staging-storage-oregon".toList ["shard-dogfood".toList, "0".toList]
      (by decide) (by decide) (by decide),
    by decide, by decide⟩


theorem ne_colon_of_isSchemeByte (c : Char) (h : url.isSchemeByte c = true) : c ≠ ':' := by
  simp only [url.isSchemeByte, url.isLetter, url.isDigit, Bool.or_eq_true, Bool.and_eq_true,
    decide_eq_true_eq, char_le_iff, char_eq_iff, ne_eq] at *
  simp only [Char.reduceToNat] at *
  omega

theorem getschemeLoop_some (s acc : GoString) (r : GoString × GoString)
    (h : url.getschemeLoop s false acc = .ok (some r)) :
    ':' ∈ s ∧ (s.takeWhile (· != ':')).all url.isSchemeByte = true := by
  induction s generalizing acc with
  | nil => simp [url.getschemeLoop] at h
  | cons c cs ih =>
    by_cases hc : url.isSchemeByte c = true
    · have hne := ne_colon_of_isSchemeByte c hc
      have hrec : url.getschemeLoop cs false (c :: acc) = .ok (some r) := by
        by_cases hl : url.isLetter c = true
        · simpa [url.getschemeLoop, hl] using h
        · have hd : (url.isDigit c || decide (c = '+') || decide (c = '-')
              || decide (c = '.')) = true := by
            simp only [url.isSchemeByte, Bool.or_eq_true, decide_eq_true_eq] at hc
            simp only [Bool.or_eq_true, decide_eq_true_eq]
            tauto
          simp only [url.getschemeLoop, hl, hd] at h
          simpa using h
      obtain ⟨hmem, hall⟩ := ih (c :: acc) hrec
      refine ⟨List.mem_cons_of_mem _ hmem, ?_⟩
      simp [List.takeWhile_cons, hne, hc, hall]
    · have hl : url.isLetter c = false := by
        simp only [url.isSchemeByte, Bool.or_eq_true, decide_eq_true_eq, not_or] at hc
        simpa using hc.1.1.1.1
      have hd : (url.isDigit c || decide (c = '+') || decide (c = '-')
          || decide (c = '.')) = false := by
        simp only [url.isSchemeByte, Bool.or_eq_true, decide_eq_true_eq, not_or] at hc
        simp only [Bool.or_eq_false_iff, decide_eq_false_iff_not]
        exact ⟨⟨⟨by simpa using hc.1.1.1.2, hc.1.1.2⟩, hc.1.2⟩, hc.2⟩
      by_cases hcol : c = ':'
      · subst hcol
        simp [List.takeWhile_cons]
      · simp [url.getschemeLoop, hl, hd, hcol] at h

theorem getscheme_without_scheme (s : GoString) (h : url.hasSchemePrefix s = false) :
    (∃ e, url.getscheme s = .error e) ∨ url.getscheme s = .ok ([], s) := by
  cases hloop : url.getschemeLoop s true [] with
  | error e => exact Or.inl ⟨e, by simp [url.getscheme, hloop]⟩
  | ok o =>
    cases o with
    | none => exact Or.inr (by simp [url.getscheme, hloop])
    | some r =>
      exfalso
      cases s with
      | nil => simp [url.getschemeLoop] at hloop
      | cons c cs =>
        by_cases hl : url.isLetter c = true
        · have hrec : url.getschemeLoop cs false [c] = .ok (some r) := by
            simpa [url.getschemeLoop, hl] using hloop
          obtain ⟨hmem, hall⟩ := getschemeLoop_some cs [c] r hrec
          have hne := ne_colon_of_isSchemeByte c (isSchemeByte_of_isLetter c hl)
          have : url.hasSchemePrefix (c :: cs) = true := by
            simp [url.hasSchemePrefix, List.takeWhile_cons, hne, url.validScheme, hl, hall, hmem]
          rw [h] at this
          exact Bool.false_ne_true this
        · by_cases hd : (url.isDigit c || decide (c = '+') || decide (c = '-')
              || decide (c = '.')) = true
          · simp [url.getschemeLoop, hl, hd] at hloop
          · by_cases hcol : c = ':'
            · subst hcol
              have h1 : url.isLetter ':' = false := by decide
              have h2 : url.isDigit ':' = false := by decide
              simp [url.getschemeLoop, h1, h2] at hloop
            · simp [url.getschemeLoop, hl, hd, hcol] at hloop

theorem HasPrefix_take (s : GoString) (n : Nat) (c : Char)
    (h : strings.HasPrefix s [c] = false) : strings.HasPrefix (s.take n) [c] = false := by
  cases s with
  | nil => simp [strings.HasPrefix, List.isPrefixOf]
  | cons x xs =>
    cases n with
    | zero => simp [strings.HasPrefix, List.isPrefixOf]
    | succ k => simpa [strings.HasPrefix, List.isPrefixOf] using h

theorem split_fst_no_prefix (s : GoString) (sep c : Char) (cutc : Bool)
    (h : strings.HasPrefix s [c] = false) :
    strings.HasPrefix (url.split s sep cutc).1 [c] = false := by
  unfold url.split
  cases strings.IndexByte s sep with
  | none => exact h
  | some i => cases cutc <;> exact HasPrefix_take s i c h

/-- A string with no scheme that is not "*" and does not begin with `/` is no
request URI; neither is the empty string. -/
theorem parseViaRequest_without_scheme (s : GoString)
    (h : s = [] ∨ (url.hasSchemePrefix s = false ∧ strings.HasPrefix s ['/'] = false
      ∧ s ≠ ['*'])) :
    ∃ e, url.parseViaRequest s = .error e := by
  unfold url.parseViaRequest
  by_cases hctl : url.stringContainsCTLByte s = true
  · exact ⟨_, by rw [if_pos hctl]⟩
  rw [if_neg hctl]
  by_cases hnil : s = []
  · exact ⟨_, by rw [if_pos hnil]⟩
  rw [if_neg hnil]
  rcases h with h | ⟨hsch, hpre, hstar⟩
  · exact absurd h hnil
  rw [if_neg hstar]
  rcases getscheme_without_scheme s hsch with ⟨e, he⟩ | he
  · exact ⟨e, by rw [he]⟩
  · rw [he]
    refine ⟨.invalidURIForRequest, ?_⟩
    have hrest : strings.HasPrefix
        (if (strings.HasSuffix s ['?'] && decide (strings.CountByte s '?' = 1)) = true
          then (s.take (s.length - 1), ([] : GoString)) else url.split s '?' true).1 ['/']
        = false := by
      split_ifs
      · exact HasPrefix_take s _ '/' hpre
      · exact split_fst_no_prefix s '?' '/' true hpre
    simp only [url.toLower, List.map_nil, hrest]
    simp


/-- C10 as stated fails: a source string with no scheme that begins with `/`,
and one with a scheme but no `//` authority, are both accepted; `Bucket()`
returns no error and an empty bucket. -/
theorem Bucket_accepts_other_shapes :
    GetMountsV2Response.Bucket (some (mountOfSource "/only/a/path".toList))
      = .returned (.ok ([], "only/a/path".toList)) ∧
    GetMountsV2Response.Bucket (some (mountOfSource "s3a:bucket/path".toList))
      = .returned (.ok ([], [])) := by
  decide

/-- C10, amended: for every mount entry whose source string is empty, or has no
scheme, does not begin with `/` and is not the lone `*` (for example
"bucket/path"), `Bucket()` returns (it does not panic) with a non-nil error,
the `url.Error` of the parse. -/
theorem Bucket_error_without_scheme (m : GetMountsV2Response)
    (h : m.SourceString = [] ∨
      (url.hasSchemePrefix m.SourceString = false ∧
        strings.HasPrefix m.SourceString "/".toList = false ∧
        m.SourceString ≠ "*".toList)) :
    ∃ cause, GetMountsV2Response.Bucket (some m)
      = .returned (.error (.urlParse m.SourceString cause)) := by
  obtain ⟨e, he⟩ := parseViaRequest_without_scheme m.SourceString h
  exact ⟨e, by simp only [GetMountsV2Response.Bucket, url.ParseRequestURI, he]⟩

/-- C10, amended, at the empty source string and at "bucket/path". -/
theorem Bucket_error_without_scheme_witness :
    (∃ cause, GetMountsV2Response.Bucket (some (mountOfSource []))
      = .returned (.error (.urlParse (mountOfSource []).SourceString cause))) ∧
    (∃ cause, GetMountsV2Response.Bucket (some (mountOfSource "bucket/path".toList))
      = .returned
          (.error (.urlParse (mountOfSource "bucket/path".toList).SourceString cause))) :=
  ⟨Bucket_error_without_scheme (mountOfSource []) (Or.inl rfl),
   Bucket_error_without_scheme (mountOfSource "bucket/path".toList)
    (Or.inr ⟨by decide, by decide, by decide⟩)⟩


end Goofys
